import Mathlib

/-!
Verification development for the Solana multi-send batching and confirmation
orchestrator (`src/App.tsx`; `src/utils/solanaUtils.ts` contains an unused
variant of the builder and is not imported by the application).  The
TypeScript source is shallowly embedded: pure computations become Lean
functions, network effects (address validation, account lookup, fee
sponsorship, submission, status polling) become explicit environment
parameters, and the orchestrator bodies of `handleSend` and
`handleMultiTokenSend` become pure functions from an environment to a final
session state plus an ordered event trace.

Numeric amounts: the source computes
`BigInt(Math.round(parseFloat(amount) * Math.pow(10, decimals)))` in IEEE-754
binary64 ("double") arithmetic.  The embedding models doubles exactly: a
finite double is a pair `(m, e)` denoting `m * 2^e`, plus Infinity/NaN;
`parseFloat` parses the decimal numeral exactly (or the `Infinity` literal)
and rounds the exact value to the nearest double, ties to even, as ECMA-262
prescribes; multiplication re-rounds the exact product; values at or beyond
`2^1024` overflow to Infinity; `Math.round` on a finite double is
`⌊value + 1/2⌋` computed exactly; `BigInt` of a NaN/Infinity round throws,
modelled as `none`.  `Math.pow(10, d)` is modelled as the correctly rounded
double of `10^d` (it is exact for `d ≤ 22`).  Powers and binary logarithms
are computed by logarithmic-depth helpers (`pow2go`, `pow10go`, `bsGo`) so
that concrete instances reduce inside the kernel.
-/

/-- A recipient as parsed from the address-book text: an address string and a
decimal amount string (`interface Recipient` in App.tsx). -/
structure Recipient where
  address : String
  amount : String
deriving DecidableEq, Repr

/-- `MAX_BATCH_SIZE = 100` in App.tsx: the cap on total recipients. -/
def MAX_BATCH_SIZE : Nat := 100

/-- `MAX_TX_SIZE_SOL = 8` in App.tsx: max SOL recipients per transaction. -/
def MAX_TX_SIZE_SOL : Nat := 8

/-- `MAX_TX_SIZE_SPL = 5` in App.tsx: max SPL recipients per transaction. -/
def MAX_TX_SIZE_SPL : Nat := 5

/-- `SOL_MINT = "SOL"` in App.tsx: the sentinel mint denoting native SOL. -/
def SOL_MINT : String := "SOL"

/-- Fuel-indexed worker for `chunk`.  The fuel equals the list length at the
top call; each step consumes at least one element when the chunk size is
positive, so the fuel never runs out in that case. -/
def chunkGo {α : Type} (B : Nat) : Nat → List α → List (List α)
  | _, [] => []
  | 0, _ :: _ => []
  | Nat.succ fuel, x :: xs => ((x :: xs).take B) :: chunkGo B fuel ((x :: xs).drop B)

/-- The chunking loop of `buildMultiSendTransaction` (App.tsx lines 221-224,
likewise solanaUtils.ts lines 87-90): `for (i = 0; i < n; i += B) slice(i, i+B)`. -/
def chunk {α : Type} (B : Nat) (xs : List α) : List (List α) :=
  chunkGo B xs.length xs

/-- Separator predicate of the tokenizer regex `[\n\s,]+` in `handleParse`
(App.tsx line 600): newline, whitespace, or comma. -/
def isSepChar (c : Char) : Bool :=
  c = '\n' || c.isWhitespace || c = ','

/-- Fuel-indexed worker for `tokenize`: extracts the maximal runs of
non-separator characters, which is what `split(/[\n\s,]+/)` followed by
`filter(token => token.trim() !== '')` produces. -/
def tokGo : Nat → List Char → List (List Char)
  | 0, _ => []
  | _ + 1, [] => []
  | fuel + 1, c :: cs =>
    if isSepChar c then tokGo fuel cs
    else (c :: cs.takeWhile (fun d => !isSepChar d)) ::
      tokGo fuel (cs.dropWhile (fun d => !isSepChar d))

/-- Tokenization step of `handleParse` (App.tsx line 600):
`text.split(/[\n\s,]+/).filter(token => token.trim() !== '')`. -/
def tokenize (text : String) : List String :=
  (tokGo text.data.length text.data).map (fun cs => String.mk cs)

/-- The two parse modes of `handleParse`: `'SAME'` (UNIFORM, one amount for
every address) and `'DIFF'` (PAIRED, positional address/amount pairs). -/
inductive Mode where
  | SAME
  | DIFF
deriving DecidableEq, Repr

/-- PAIRED-mode consumption of the token stream (App.tsx lines 612-619):
tokens are read two at a time as (address, amount); a trailing address with
no following amount token gets amount `"0"` (`tokens[i + 1]?.trim() || '0'`). -/
def pairUp : List String → List Recipient
  | [] => []
  | [a] => [⟨a, "0"⟩]
  | a :: b :: rest => ⟨a, b⟩ :: pairUp rest

/-- The recipient list `handleParse` builds before the cap check (App.tsx
lines 602-620).  In SAME mode each token becomes an address with the shared
amount (`sameAmount || '0'`). -/
def parseAll (mode : Mode) (sameAmount : String) (text : String) : List Recipient :=
  let toks := tokenize text
  match mode with
  | Mode.SAME => toks.map (fun t => ⟨t, if sameAmount = "" then "0" else sameAmount⟩)
  | Mode.DIFF => pairUp toks

/-- `handleParse` (App.tsx lines 597-629), returning the stored recipient
list and whether the truncation warning was emitted (App.tsx lines 622-628). -/
def handleParse (mode : Mode) (sameAmount : String) (text : String) :
    List Recipient × Bool :=
  let recipients := parseAll mode sameAmount text
  if MAX_BATCH_SIZE < recipients.length then (recipients.take MAX_BATCH_SIZE, true)
  else (recipients, false)

/-- Digit run to natural number, most significant first. -/
def digitsToNat (ds : List Char) : Nat :=
  ds.foldl (fun n c => 10 * n + (c.toNat - 48)) 0

/-- Exponent part of a JS float numeral: `[eE][+-]?digits`.  Returns the
exponent contributed (0 when the exponent part is absent or malformed, in
which case JS `parseFloat` stops before the `e`). -/
def parseExponent (cs : List Char) : Int :=
  match cs with
  | [] => 0
  | c :: t =>
    if c = 'e' ∨ c = 'E' then
      let (esgn, t2) : Int × List Char :=
        match t with
        | '-' :: u => (-1, u)
        | '+' :: u => (1, u)
        | _ => (1, t)
      let eds := t2.takeWhile Char.isDigit
      if eds.isEmpty then 0 else esgn * (digitsToNat eds : Int)
    else 0

/-- An IEEE-754 binary64 value ("JS number"): `finite m e` denotes the real
number `m * 2^e` (the representation is not normalised — only the denoted
value matters), plus the two infinities and NaN.  The functions below only
produce `finite m e` pairs that denote exactly representable doubles. -/
inductive JsNum where
  | finite (m : Int) (e : Int)
  | inf
  | neginf
  | nan
deriving DecidableEq, Repr

/-- `2 ^ n` by logarithmic-depth squaring (fuel = `n` suffices since the
argument halves): keeps kernel reduction of concrete instances shallow. -/
def pow2go : Nat → Nat → Nat
  | 0, _ => 1
  | _ + 1, 0 => 1
  | fuel + 1, n =>
    let h := pow2go fuel (n / 2)
    if n % 2 = 0 then h * h else 2 * (h * h)

/-- `2 ^ n` (logarithmic-depth; proved equal to `2 ^ n` below). -/
def pow2 (n : Nat) : Nat := pow2go n n

/-- `10 ^ n` by logarithmic-depth squaring. -/
def pow10go : Nat → Nat → Nat
  | 0, _ => 1
  | _ + 1, 0 => 1
  | fuel + 1, n =>
    let h := pow10go fuel (n / 2)
    if n % 2 = 0 then h * h else 10 * (h * h)

/-- `10 ^ n` (logarithmic-depth). -/
def pow10 (n : Nat) : Nat := pow10go n n

/-- Doubling upper-bound search: smallest power-of-two exponent bound. -/
def hiGo (a : Nat) : Nat → Nat → Nat
  | 0, hi => hi
  | fuel + 1, hi => if a < pow2 hi then hi else hiGo a fuel (2 * hi)

/-- Bisection for `⌊log2 a⌋` between an invalid lower and valid upper bound. -/
def bsGo (a : Nat) : Nat → Nat → Nat → Nat
  | 0, lo, _ => lo
  | fuel + 1, lo, hi =>
    if hi ≤ lo + 1 then lo
    else if pow2 ((lo + hi) / 2) ≤ a then bsGo a fuel ((lo + hi) / 2) hi
    else bsGo a fuel lo ((lo + hi) / 2)

/-- `⌊log2 a⌋` for `a ≥ 1`, by doubling then bisection (log depth). -/
def floorLog2Nat (a : Nat) : Nat :=
  bsGo a (hiGo a (a + 1) 1) 0 (hiGo a (a + 1) 1)

/-- `⌈log2 c⌉` for `c ≥ 1`. -/
def ceilLog2 (c : Nat) : Nat :=
  if c ≤ 1 then 0 else floorLog2Nat (c - 1) + 1

/-- `⌊log2 (a/b)⌋` of the exact positive rational `a/b`. -/
def floorLog2Pos (a b : Nat) : Int :=
  if b ≤ a then (floorLog2Nat (a / b) : Int)
  else -(ceilLog2 ((b + a - 1) / a) : Int)

/-- Round `num/den` to the nearest natural, ties to even. -/
def rneNat (num den : Nat) : Nat :=
  let q := num / den
  let r := num % den
  if 2 * r < den then q
  else if den < 2 * r then q + 1
  else if q % 2 = 0 then q else q + 1

/-- Round the exact positive rational `a/b` to the nearest binary64, ties to
even (IEEE round-to-nearest-even): the exponent is clamped to the subnormal
floor `-1074`; a rounded value of binary length `≥ 1025 - e` (i.e. `≥ 2^1024`)
overflows to `Infinity`. -/
def roundPos (a b : Nat) : JsNum :=
  let e : Int := max (floorLog2Pos a b - 52) (-1074)
  let n : Nat := if 0 ≤ e then rneNat a (b * pow2 e.toNat) else rneNat (a * pow2 (-e).toNat) b
  if n = 0 then JsNum.finite 0 0
  else if 1025 ≤ (floorLog2Nat n : Int) + 1 + e then JsNum.inf
  else JsNum.finite (n : Int) e

/-- Negation of a double (exact). -/
def negJs (x : JsNum) : JsNum :=
  match x with
  | JsNum.finite m e => JsNum.finite (-m) e
  | JsNum.inf => JsNum.neginf
  | JsNum.neginf => JsNum.inf
  | JsNum.nan => JsNum.nan

/-- The exact rational `n / 10^s` rounded to the nearest double: ECMA-262's
string-to-double conversion applied to a decimal numeral of that value. -/
def toDouble (n : Int) (s : Nat) : JsNum :=
  if n = 0 then JsNum.finite 0 0
  else if 0 < n then roundPos n.toNat (pow10 s)
  else negJs (roundPos (-n).toNat (pow10 s))

/-- The exact value `m * 2^e` rounded to the nearest double (used for the
product re-rounding of a double multiplication). -/
def roundSigned (m : Int) (e : Int) : JsNum :=
  if m = 0 then JsNum.finite 0 0
  else if 0 < m then
    (if 0 ≤ e then roundPos (m.toNat * pow2 e.toNat) 1 else roundPos m.toNat (pow2 (-e).toNat))
  else negJs
    (if 0 ≤ e then roundPos ((-m).toNat * pow2 e.toNat) 1 else roundPos (-m).toNat (pow2 (-e).toNat))

/-- IEEE-754 binary64 multiplication: the exact product re-rounded; the
special rules `NaN*x = NaN`, `±Inf * x = ±Inf` for `x ≠ 0` (sign rule),
`±Inf * 0 = NaN`. -/
def mulDouble (x y : JsNum) : JsNum :=
  match x, y with
  | JsNum.nan, _ => JsNum.nan
  | _, JsNum.nan => JsNum.nan
  | JsNum.finite m1 e1, JsNum.finite m2 e2 => roundSigned (m1 * m2) (e1 + e2)
  | JsNum.finite m _, JsNum.inf => if m = 0 then JsNum.nan else if 0 < m then JsNum.inf else JsNum.neginf
  | JsNum.finite m _, JsNum.neginf => if m = 0 then JsNum.nan else if 0 < m then JsNum.neginf else JsNum.inf
  | JsNum.inf, JsNum.finite m _ => if m = 0 then JsNum.nan else if 0 < m then JsNum.inf else JsNum.neginf
  | JsNum.neginf, JsNum.finite m _ => if m = 0 then JsNum.nan else if 0 < m then JsNum.neginf else JsNum.inf
  | JsNum.inf, JsNum.inf => JsNum.inf
  | JsNum.inf, JsNum.neginf => JsNum.neginf
  | JsNum.neginf, JsNum.inf => JsNum.neginf
  | JsNum.neginf, JsNum.neginf => JsNum.inf

/-- `Math.pow(10, d)`: the correctly rounded double of `10^d` (exact for
`d ≤ 22`; V8 computes this correctly rounded for integral exponents). -/
def powTen (d : Nat) : JsNum := roundPos (pow10 d) 1

/-- Exact model of JS `parseFloat`: leading whitespace is skipped, then the
longest prefix `[+-]? (Infinity | digits ['.' digits]? ([eE][+-]?digits)?)`
is read; `nan` models the `NaN` result when nothing is read.  A numeral's
exact decimal value is rounded to the nearest double, ties to even, as
ECMA-262 7.1.4.1 prescribes; values at or beyond `2^1024` give `Infinity`. -/
def parseFloat (str : String) : JsNum :=
  let cs0 := str.data.dropWhile Char.isWhitespace
  let (sgn, cs1) : Int × List Char :=
    match cs0 with
    | '-' :: t => (-1, t)
    | '+' :: t => (1, t)
    | _ => (1, cs0)
  if cs1.take 8 = "Infinity".data then
    (if sgn < 0 then JsNum.neginf else JsNum.inf)
  else
    let ipart := cs1.takeWhile Char.isDigit
    let cs2 := cs1.dropWhile Char.isDigit
    let (fpart, cs3) : List Char × List Char :=
      match cs2 with
      | '.' :: t => (t.takeWhile Char.isDigit, t.dropWhile Char.isDigit)
      | _ => ([], cs2)
    if ipart.isEmpty && fpart.isEmpty then JsNum.nan
    else
      let mant : Int := sgn * (digitsToNat (ipart ++ fpart) : Int)
      let e : Int := parseExponent cs3 - (fpart.length : Int)
      if 0 ≤ e then toDouble (mant * (pow10 e.toNat : Int)) 0
      else toDouble mant (-e).toNat

/-- `parseFloat(s) > 0`: the amount filter used by `handleSend` (App.tsx line
650) and the per-token amount check of `handleMultiTokenSend` (line 802).
`NaN > 0` is false in JS; `Infinity > 0` is true. -/
def posAmount (s : String) : Bool :=
  match parseFloat s with
  | JsNum.finite m _ => decide (0 < m)
  | JsNum.inf => true
  | _ => false

/-- `Math.round` applied to the finite double `m * 2^e`, computed exactly:
`Math.round x = ⌊x + 1/2⌋`, and for `e < 0`,
`m * 2^e + 1/2 = (2*m + 2^(-e)) / (2 * 2^(-e))`; integer division on `Int`
rounds toward negative infinity for a positive divisor. -/
def mathRoundME (m e : Int) : Int :=
  if 0 ≤ e then m * (pow2 e.toNat : Int)
  else (2 * m + (pow2 (-e).toNat : Int)) / (2 * (pow2 (-e).toNat : Int))

/-- The amount conversion of the builder (App.tsx line 279):
`BigInt(Math.round(parseFloat(amount) * Math.pow(10, decimals)))`, with the
multiplication performed in binary64.  `none` models the `RangeError` that
`BigInt` raises on `Math.round` of `NaN` or `±Infinity`. -/
def convertAmount (amount : String) (decimals : Nat) : Option Int :=
  match mulDouble (parseFloat amount) (powTen decimals) with
  | JsNum.finite m e => some (mathRoundME m e)
  | _ => none

/-- Result record of `confirmTransactionWithTimeout`:
`{ success: boolean, error?: string }`. -/
structure ConfirmResult where
  success : Bool
  error : Option String
deriving DecidableEq, Repr

/-- One `getSignatureStatuses` poll outcome as consumed by
`confirmTransactionWithTimeout` (App.tsx lines 172-196):
`noResult` covers a null/absent status and an RPC exception (both sleep and
continue); `status err confirmationStatus` is a visible status object. -/
inductive PollResp where
  | noResult
  | status (err : Option String) (confirmationStatus : String)
deriving DecidableEq, Repr

/-- One iteration body of the polling loop (App.tsx lines 179-194): `some r`
means the loop returns `r`, `none` means sleep 2s and poll again. -/
def confirmStep (commitment : String) (resp : PollResp) : Option ConfirmResult :=
  match resp with
  | PollResp.noResult => none
  | PollResp.status err cs =>
    match err with
    | some e => some ⟨false, some ("Transaction failed: " ++ e)⟩
    | none =>
      if cs = commitment ∨ cs = "finalized" then some ⟨true, none⟩ else none

/-- The polling loop with the remaining number of polls as fuel; when the
fuel is exhausted the deadline `Date.now() - startTime < timeoutMs` has
passed and the timeout result is returned (App.tsx line 200). -/
def confirmLoop (polls : Nat → PollResp) (commitment : String) :
    Nat → Nat → ConfirmResult
  | 0, _ => ⟨false, some "Transaction confirmation timeout"⟩
  | fuel + 1, k =>
    match confirmStep commitment (polls k) with
    | some r => r
    | none => confirmLoop polls commitment fuel (k + 1)

/-- `confirmTransactionWithTimeout` (App.tsx lines 162-201): polls every
~2000 ms until the deadline, so at most `⌈timeoutMs / 2000⌉` polls happen. -/
def confirmTransactionWithTimeout (polls : Nat → PollResp) (commitment : String)
    (timeoutMs : Nat) : ConfirmResult :=
  confirmLoop polls commitment ((timeoutMs + 1999) / 2000) 0

/-- The network/wallet environment of one run: address validation
(`new PublicKey` success), receiving-account existence (`getAccountInfo`),
fee sponsorship (`alchemy_requestFeePayer`, keyed by the global submission
index), submission (`sendTransaction`/`sendRawTransaction`, keyed likewise),
and the status-poll stream of each signature. -/
structure Env where
  validAddr : String → Bool
  ataExists : String → Bool
  sponsor : Nat → Except String String
  submit : Nat → Except String String
  polls : String → Nat → PollResp

/-- The orchestrator's confirmation call: both orchestrators invoke
`confirmTransactionWithTimeout(connection, sig, 'confirmed', 90000)`. -/
def awaitConfirm (env : Env) (sig : String) : ConfirmResult :=
  confirmTransactionWithTimeout (env.polls sig) "confirmed" 90000

/-- Derivation of the associated token account
(`getAssociatedTokenAddress(mint, recipient)`): an opaque deterministic
injective pairing of mint and owner. -/
def deriveAta (mint owner : String) : String :=
  mint ++ "/" ++ owner

/-- One pending creation unit (an entry of `atasToCreate`, App.tsx lines
243-247). -/
structure AtaWork where
  recipient : String
  ata : String
  mint : String
deriving DecidableEq, Repr

/-- Result of the account-resolution loop: the `ataStats` counters plus the
`atasToCreate` list (App.tsx lines 226-249). -/
structure ResolveResult where
  existing : Nat
  toCreate : Nat
  work : List AtaWork
deriving DecidableEq, Repr

/-- The account-resolution loop of `buildMultiSendTransaction` (App.tsx lines
232-249): for each recipient in order, derive the ATA and check existence;
missing accounts are appended to the creation work list.  There is no
deduplication step in the source. -/
def resolveAtas (ataExists : String → Bool) (mint : String) :
    List Recipient → ResolveResult
  | [] => ⟨0, 0, []⟩
  | r :: rest =>
    let ata := deriveAta mint r.address
    let res := resolveAtas ataExists mint rest
    if ataExists ata then ⟨res.existing + 1, res.toCreate, res.work⟩
    else ⟨res.existing, res.toCreate + 1, ⟨r.address, ata, mint⟩ :: res.work⟩

/-- Ledger instructions the builder emits. -/
inductive Instr where
  | solTransfer (toPubkey : String) (lamports : Int)
  | tokenTransferChecked (source mint dest : String) (amount : Int) (decimals : Nat)
  | createAta (payer ata owner mint : String)
deriving DecidableEq, Repr

/-- One transfer instruction for one recipient (App.tsx lines 277-306):
`SystemProgram.transfer` for SOL, `createTransferCheckedInstruction` (which
carries the declared decimals) for a token.  `none` models the exception
raised when the amount does not convert. -/
def buildTransferIx (isSol : Bool) (mint sender : String) (decimals : Nat)
    (r : Recipient) : Option Instr :=
  (convertAmount r.amount decimals).map (fun amt =>
    if isSol then Instr.solTransfer r.address amt
    else Instr.tokenTransferChecked (deriveAta mint sender) mint
      (deriveAta mint r.address) amt decimals)

/-- Return record of `buildMultiSendTransaction` (App.tsx lines 210-214). -/
structure BuildResult where
  transferTxs : List (List Instr)
  ataTxs : List (List Instr)
  existing : Nat
  toCreate : Nat
deriving DecidableEq, Repr

/-- `const ataChunkSize = 2` (App.tsx line 252): creation instructions are
heavier, so at most two per transaction. -/
def ataChunkSize : Nat := 2

/-- `buildMultiSendTransaction` (App.tsx lines 203-313): chunk the recipients
by asset-dependent size, resolve receiving accounts for a token asset, chunk
the creation work by `ataChunkSize`, and build one transfer transaction per
chunk.  `none` models the exception raised by `BigInt(NaN)` for an
unparseable amount. -/
def buildMultiSendTransaction (ataExists : String → Bool) (sender : String)
    (recipients : List Recipient) (tokenMint : String) (decimals : Nat) :
    Option BuildResult :=
  let isSol : Bool := tokenMint = SOL_MINT
  let chunkSize := if isSol then MAX_TX_SIZE_SOL else MAX_TX_SIZE_SPL
  let chunks := chunk chunkSize recipients
  let res := if isSol then (⟨0, 0, []⟩ : ResolveResult)
    else resolveAtas ataExists tokenMint recipients
  let ataTxs := (chunk ataChunkSize res.work).map (fun ws =>
    ws.map (fun w => Instr.createAta sender w.ata w.recipient w.mint))
  match chunks.mapM (fun c => c.mapM (buildTransferIx isSol tokenMint sender decimals)) with
  | none => none
  | some transferTxs => some ⟨transferTxs, ataTxs, res.existing, res.toCreate⟩

/-- Observable events of a run, in program order: each submission and each
awaited confirmation, tagged with the index of the asset being processed. -/
inductive Ev where
  | submitAta (asset : Nat) (sig : String)
  | confirmAta (asset : Nat) (sig : String) (res : ConfirmResult)
  | submitTransfer (asset : Nat) (sig : String)
  | confirmTransfer (asset : Nat) (sig : String) (res : ConfirmResult)
deriving DecidableEq, Repr

/-- Outcome of one sequential stage: accumulated signatures (submission
order), emitted events, and the first raised error if any. -/
structure StepOut where
  sigs : List String
  events : List Ev
  error : Option String
deriving Repr

/-- The ATA-creation submission loop (App.tsx lines 677-729 / 835-874):
per batch, request sponsorship (`ALCHEMY_CONFIG.enabled` is `true` in the
source, so the Alchemy path is always taken), then submit the sponsored
transaction; errors abort the loop.  `k` is the global submission index and
`i` the batch index used in the single-asset error wrapping. -/
def submitAtas (env : Env) (asset : Nat)
    (wrapSponsor wrapSubmit : Nat → String → String) :
    Nat → Nat → List (List Instr) → StepOut
  | _, _, [] => ⟨[], [], none⟩
  | k, i, _tx :: rest =>
    match env.sponsor k with
    | Except.error e => ⟨[], [], some (wrapSponsor i e)⟩
    | Except.ok _signed =>
      match env.submit k with
      | Except.error e => ⟨[], [], some (wrapSubmit i e)⟩
      | Except.ok sig =>
        let out := submitAtas env asset wrapSponsor wrapSubmit (k + 1) (i + 1) rest
        ⟨sig :: out.sigs, Ev.submitAta asset sig :: out.events, out.error⟩

/-- The transfer submission loop (App.tsx lines 745-766 / 883-901): submit
each transfer transaction in order; a submission error aborts the run (it is
not wrapped). -/
def submitTransfers (env : Env) (asset : Nat) :
    Nat → List (List Instr) → StepOut
  | _, [] => ⟨[], [], none⟩
  | k, _tx :: rest =>
    match env.submit k with
    | Except.error e => ⟨[], [], some e⟩
    | Except.ok sig =>
      let out := submitTransfers env asset (k + 1) rest
      ⟨sig :: out.sigs, Ev.submitTransfer asset sig :: out.events, out.error⟩

/-- A confirmation loop (App.tsx lines 733-735, 771-774, 876-878, 903-906):
await `confirmTransactionWithTimeout` for each signature in order.  The
source discards the returned result; the event records it. -/
def confirmEvents (env : Env) (mk : String → ConfirmResult → Ev)
    (sigs : List String) : List Ev :=
  sigs.map (fun s => mk s (awaitConfirm env s))

/-- The per-asset pipeline shared by `handleSend` (App.tsx lines 661-774) and
the loop body of `handleMultiTokenSend` (lines 814-906): build, submit every
creation batch, await every creation confirmation, then submit every transfer
batch and await every transfer confirmation. -/
def processAsset (env : Env) (asset : Nat)
    (wrapSponsor wrapSubmit : Nat → String → String) (k0 : Nat)
    (sender : String) (recipients : List Recipient) (mint : String)
    (decimals : Nat) : StepOut :=
  match buildMultiSendTransaction env.ataExists sender recipients mint decimals with
  | none => ⟨[], [], some "Cannot convert NaN to a BigInt"⟩
  | some br =>
    match submitAtas env asset wrapSponsor wrapSubmit k0 0 br.ataTxs with
    | ⟨aSigs, aEvents, some e⟩ => ⟨aSigs, aEvents, some e⟩
    | ⟨aSigs, aEvents, none⟩ =>
      match submitTransfers env asset (k0 + aSigs.length) br.transferTxs with
      | ⟨tSigs, tEvents, some e⟩ =>
        ⟨aSigs ++ tSigs,
         aEvents ++ confirmEvents env (fun s r => Ev.confirmAta asset s r) aSigs
           ++ tEvents,
         some e⟩
      | ⟨tSigs, tEvents, none⟩ =>
        ⟨aSigs ++ tSigs,
         aEvents ++ confirmEvents env (fun s r => Ev.confirmAta asset s r) aSigs
           ++ tEvents
           ++ confirmEvents env (fun s r => Ev.confirmTransfer asset s r) tSigs,
         none⟩

/-- The session phase enum of the dashboard state machine. -/
inductive Status where
  | IDLE
  | VALIDATING
  | SENDING
  | SUCCESS
  | ERROR
deriving DecidableEq, Repr

/-- The observable session state at the end of a run: phase, last status
message, and the reported signature list (`txSigs`). -/
structure Session where
  status : Status
  statusMsg : String
  txSigs : List String
deriving DecidableEq, Repr

/-- Asset selection of the single-asset `handleSend` path (`tokenType` is
`'SOL'` or `'SPL'`; `'MULTI'` dispatches to `handleMultiTokenSend`). -/
inductive TokType where
  | SOL
  | SPL
deriving DecidableEq, Repr

/-- Single-asset wrapping of a sponsorship error inside the per-batch
try/catch (App.tsx lines 697 and 727). -/
def singleWrapSponsor (i : Nat) (e : String) : String :=
  "ATA batch " ++ toString (i + 1) ++ " failed: Alchemy failed: " ++ e

/-- Single-asset wrapping of a submission error inside the per-batch
try/catch (App.tsx line 727). -/
def singleWrapSubmit (i : Nat) (e : String) : String :=
  "ATA batch " ++ toString (i + 1) ++ " failed: " ++ e

/-- `handleSend` (App.tsx lines 637-789) for `tokenType` `'SOL'`/`'SPL'`:
reset `txSigs` to `[]`, filter recipients by address validity and positive
amount, run the per-asset pipeline, and set SUCCESS with the accumulated
signatures — or ERROR, leaving `txSigs` as reset.  Returns the final session
and the event trace. -/
def runHandleSend (env : Env) (tokenType : TokType) (parsed : List Recipient)
    (splMint : String) (splDecimals : Nat) (sender : String) :
    Session × List Ev :=
  if (parsed.filter (fun r => env.validAddr r.address && posAmount r.amount)).isEmpty then
    (⟨Status.ERROR, "No valid recipients found.", []⟩, [])
  else if !(match tokenType with
      | TokType.SOL => true
      | TokType.SPL => env.validAddr splMint) then
    (⟨Status.ERROR, "Invalid SPL Mint Address.", []⟩, [])
  else
    match processAsset env 0 singleWrapSponsor singleWrapSubmit 0 sender
      (parsed.filter (fun r => env.validAddr r.address && posAmount r.amount))
      (match tokenType with
        | TokType.SOL => SOL_MINT
        | TokType.SPL => splMint)
      (match tokenType with
        | TokType.SOL => 9
        | TokType.SPL => splDecimals) with
    | ⟨_sigs, events, some e⟩ => (⟨Status.ERROR, e, []⟩, events)
    | ⟨sigs, events, none⟩ => (⟨Status.SUCCESS, "Successfully sent", sigs⟩, events)

/-- One selectable token row of the multi-token panel (the fields of
`TokenAccount` that `handleMultiTokenSend` reads). -/
structure TokenSel where
  mint : String
  decimals : Nat
  symbol : String
  selected : Bool
  amountToSend : String
deriving DecidableEq, Repr

/-- Multi-asset wrapping of a sponsorship error (App.tsx line 852). -/
def multiWrapSponsor (sym : String) (_i : Nat) (e : String) : String :=
  "Alchemy failed for " ++ sym ++ ": " ++ e

/-- Multi-asset submission errors propagate unwrapped. -/
def multiWrapSubmit (_i : Nat) (e : String) : String := e

/-- The token loop of `handleMultiTokenSend` (App.tsx lines 810-907): for
each selected token in order, clone the valid recipients with the token's
amount (`token.amountToSend || '0'`) and run the per-asset pipeline;
signatures accumulate across assets; the first error aborts the loop. -/
def multiLoop (env : Env) (sender : String) (valid : List Recipient) :
    Nat → Nat → List TokenSel → StepOut
  | _, _, [] => ⟨[], [], none⟩
  | k, idx, t :: rest =>
    match processAsset env idx (multiWrapSponsor t.symbol) multiWrapSubmit k sender
      (valid.map (fun r =>
        (⟨r.address, if t.amountToSend = "" then "0" else t.amountToSend⟩ : Recipient)))
      t.mint t.decimals with
    | ⟨sigs, events, some e⟩ => ⟨sigs, events, some e⟩
    | ⟨sigs, events, none⟩ =>
      ⟨sigs ++ (multiLoop env sender valid (k + sigs.length) (idx + 1) rest).sigs,
       events ++ (multiLoop env sender valid (k + sigs.length) (idx + 1) rest).events,
       (multiLoop env sender valid (k + sigs.length) (idx + 1) rest).error⟩

/-- `handleMultiTokenSend` (App.tsx lines 791-917): reset `txSigs`, filter
recipients by address validity only, select tokens with
`selected && amountToSend && parseFloat(amountToSend) > 0`, run the token
loop, and set SUCCESS with all accumulated signatures — or ERROR, leaving
`txSigs` as reset. -/
def runHandleMultiTokenSend (env : Env) (parsed : List Recipient)
    (tokens : List TokenSel) (sender : String) : Session × List Ev :=
  if (parsed.filter (fun r => env.validAddr r.address)).isEmpty then
    (⟨Status.ERROR, "No valid recipients found.", []⟩, [])
  else if (tokens.filter (fun t =>
      t.selected && !(t.amountToSend = "") && posAmount t.amountToSend)).isEmpty then
    (⟨Status.ERROR, "No tokens selected with valid amounts.", []⟩, [])
  else
    match multiLoop env sender (parsed.filter (fun r => env.validAddr r.address)) 0 0
      (tokens.filter (fun t =>
        t.selected && !(t.amountToSend = "") && posAmount t.amountToSend)) with
    | ⟨_sigs, events, some e⟩ => (⟨Status.ERROR, e, []⟩, events)
    | ⟨sigs, events, none⟩ => (⟨Status.SUCCESS, "Sent tokens", sigs⟩, events)

/-- The recipient filter of `handleSend` (App.tsx line 650):
`isValidAddress(r.address) && parseFloat(r.amount) > 0`. -/
def singleValidFilter (validAddr : String → Bool) (parsed : List Recipient) :
    List Recipient :=
  parsed.filter (fun r => validAddr r.address && posAmount r.amount)

/-- A fully cooperative network in which every status poll stays invisible:
submissions succeed with deterministic signatures, but every confirmation
times out. -/
def envTimeout : Env where
  validAddr := fun _ => true
  ataExists := fun _ => true
  sponsor := fun _ => Except.ok "x"
  submit := fun k => Except.ok ("sig" ++ toString k)
  polls := fun _ _ => PollResp.noResult

/-- A network in which the first asset (mint `M0`) needs no creation work and
confirms, while sponsorship is unavailable, so the second asset's creation
batch aborts the run. -/
def envAbort : Env where
  validAddr := fun _ => true
  ataExists := fun s => s = "M0/A"
  sponsor := fun _ => Except.error "sponsorship unavailable"
  submit := fun k => Except.ok ("sig" ++ toString k)
  polls := fun _ _ => PollResp.status none "confirmed"

/-- One selected token for a minimal multi-asset run. -/
def oneToken : List TokenSel := [⟨"M0", 0, "TOK0", true, "1"⟩]

/-- Two selected tokens: the second one has no receiving accounts yet. -/
def twoTokens : List TokenSel :=
  [⟨"M0", 0, "TOK0", true, "1"⟩, ⟨"M1", 0, "TOK1", true, "1"⟩]

/-- 101 copies of the token `a`, exceeding the recipient cap by one. -/
def bigText101 : String := String.intercalate " " (List.replicate 101 "a")

lemma chunkGo_flatten {α : Type} (B : Nat) (hB : 0 < B) :
    ∀ (fuel : Nat) (xs : List α), xs.length ≤ fuel →
      (chunkGo B fuel xs).flatten = xs := by
  intro fuel
  induction fuel with
  | zero =>
    intro xs h
    cases xs with
    | nil => rfl
    | cons x xs => simp at h
  | succ fuel ih =>
    intro xs h
    cases xs with
    | nil => rfl
    | cons x xs =>
      have hlen : ((x :: xs).drop B).length ≤ fuel := by
        simp only [List.length_drop]
        simp only [List.length_cons] at h ⊢
        omega
      show ((x :: xs).take B :: chunkGo B fuel ((x :: xs).drop B)).flatten = x :: xs
      rw [List.flatten_cons, ih _ hlen, List.take_append_drop]

lemma chunkGo_length {α : Type} (B : Nat) (hB : 0 < B) :
    ∀ (fuel : Nat) (xs : List α), xs.length ≤ fuel →
      (chunkGo B fuel xs).length = (xs.length + B - 1) / B := by
  intro fuel
  induction fuel with
  | zero =>
    intro xs h
    cases xs with
    | nil => simp [chunkGo, Nat.div_eq_of_lt (show B - 1 < B by omega)]
    | cons x xs => simp at h
  | succ fuel ih =>
    intro xs h
    cases xs with
    | nil => simp [chunkGo, Nat.div_eq_of_lt (show B - 1 < B by omega)]
    | cons x xs =>
      have hlen : ((x :: xs).drop B).length ≤ fuel := by
        simp only [List.length_drop]
        simp only [List.length_cons] at h ⊢
        omega
      show ((x :: xs).take B :: chunkGo B fuel ((x :: xs).drop B)).length
        = ((x :: xs).length + B - 1) / B
      rw [List.length_cons, ih _ hlen]
      simp only [List.length_drop, List.length_cons]
      rcases le_or_lt (xs.length + 1) B with hle | hlt
      · have h0 : xs.length + 1 - B = 0 := by omega
        have h1 : xs.length + 1 + B - 1 = (xs.length) + B := by omega
        rw [h0, h1, Nat.add_div_right _ hB,
          Nat.div_eq_of_lt (show 0 + B - 1 < B by omega),
          Nat.div_eq_of_lt (show xs.length < B by omega)]
      · have h2 : xs.length + 1 + B - 1 = (xs.length + 1 - B + B - 1) + B := by omega
        rw [h2, Nat.add_div_right _ hB]

lemma chunkGo_mem_length {α : Type} (B : Nat) :
    ∀ (fuel : Nat) (xs : List α) (c : List α),
      c ∈ chunkGo B fuel xs → c.length ≤ B := by
  intro fuel
  induction fuel with
  | zero =>
    intro xs c h
    cases xs <;> simp [chunkGo] at h
  | succ fuel ih =>
    intro xs c h
    cases xs with
    | nil => simp [chunkGo] at h
    | cons x xs =>
      have h2 : c = (x :: xs).take B ∨ c ∈ chunkGo B fuel ((x :: xs).drop B) := by
        simpa [chunkGo] using h
      rcases h2 with h2 | h2
      · subst h2
        simp [List.length_take]
      · exact ih _ _ h2

lemma chunk_flatten {α : Type} (B : Nat) (hB : 0 < B) (xs : List α) :
    (chunk B xs).flatten = xs :=
  chunkGo_flatten B hB xs.length xs le_rfl

lemma chunk_length {α : Type} (B : Nat) (hB : 0 < B) (xs : List α) :
    (chunk B xs).length = (xs.length + B - 1) / B :=
  chunkGo_length B hB xs.length xs le_rfl

lemma chunk_mem_length {α : Type} (B : Nat) (xs : List α) (c : List α)
    (h : c ∈ chunk B xs) : c.length ≤ B :=
  chunkGo_mem_length B xs.length xs c h

lemma mapM_option_length {α β : Type} (f : α → Option β) :
    ∀ (l : List α) (ys : List β), l.mapM f = some ys → ys.length = l.length := by
  intro l
  induction l with
  | nil =>
    intro ys h
    simp only [List.mapM_nil, pure, Option.some.injEq] at h
    simp [← h]
  | cons x xs ih =>
    intro ys h
    rw [List.mapM_cons] at h
    cases hf : f x with
    | none => rw [hf] at h; simp [bind] at h
    | some y =>
      rw [hf] at h
      cases hm : xs.mapM f with
      | none => rw [hm] at h; simp [bind] at h
      | some ys' =>
        rw [hm] at h
        simp only [bind, Option.bind, pure, Option.some.injEq] at h
        rw [← h]
        simp [ih ys' hm]

lemma mapM_option_isSome {α β : Type} (f : α → Option β) :
    ∀ (l : List α), (∀ a ∈ l, (f a).isSome = true) → (l.mapM f).isSome = true := by
  intro l
  induction l with
  | nil => intro _; rfl
  | cons x xs ih =>
    intro h
    rw [List.mapM_cons]
    cases hf : f x with
    | none =>
      have := h x (by simp)
      rw [hf] at this
      simp at this
    | some y =>
      have hm := ih (fun a ha => h a (by simp [ha]))
      cases hmm : xs.mapM f with
      | none => rw [hmm] at hm; simp at hm
      | some ys => simp [bind, hmm]

/-- Claim C2: for every recipient list of length N and every positive max
batch size B, the chunking step of `buildMultiSendTransaction` produces
exactly `⌈N / B⌉` batches, each of size at most B, whose in-order
concatenation equals the input list exactly; moreover the builder emits one
transfer transaction per chunk of the asset-dependent chunk size. -/
theorem chunk_partitions {α : Type} (B : Nat) (hB : 0 < B) (xs : List α) :
    (chunk B xs).flatten = xs
    ∧ (chunk B xs).length = (xs.length + B - 1) / B
    ∧ (∀ c ∈ chunk B xs, c.length ≤ B)
    ∧ ∀ (f : String → Bool) (sender : String) (rs : List Recipient)
        (mint : String) (d : Nat) (br : BuildResult),
        buildMultiSendTransaction f sender rs mint d = some br →
        br.transferTxs.length =
          (chunk (if mint = SOL_MINT then MAX_TX_SIZE_SOL else MAX_TX_SIZE_SPL) rs).length := by
  refine ⟨chunk_flatten B hB xs, chunk_length B hB xs,
    fun c hc => chunk_mem_length B xs c hc, ?_⟩
  intro f sender rs mint d br h
  unfold buildMultiSendTransaction at h
  simp only at h
  cases hm : (chunk (if (mint = SOL_MINT : Bool) then MAX_TX_SIZE_SOL else MAX_TX_SIZE_SPL) rs).mapM
      (fun c => c.mapM (buildTransferIx (mint = SOL_MINT) mint sender d)) with
  | none => rw [hm] at h; exact absurd h (by simp)
  | some txs =>
    rw [hm] at h
    have hbr : br.transferTxs = txs := by
      cases h.symm
      rfl
    rw [hbr, mapM_option_length _ _ _ hm]
    by_cases hsol : mint = SOL_MINT <;> simp [hsol]

theorem chunk_partitions_apply :
    (chunk 5 [1, 2, 3, 4, 5, 6, 7, 8, 9, 10, 11, 12]).flatten
      = [1, 2, 3, 4, 5, 6, 7, 8, 9, 10, 11, 12] :=
  (chunk_partitions 5 (by decide) [1, 2, 3, 4, 5, 6, 7, 8, 9, 10, 11, 12]).1

/-- Claim C7: parsing truncates to the cap-sized prefix with a warning when
the parsed count exceeds `MAX_BATCH_SIZE`, and returns the full list with no
warning otherwise. -/
theorem parse_cap_truncation (mode : Mode) (amt text : String) :
    (MAX_BATCH_SIZE < (parseAll mode amt text).length →
      (handleParse mode amt text).1.length = MAX_BATCH_SIZE
      ∧ (handleParse mode amt text).1 <+: parseAll mode amt text
      ∧ (handleParse mode amt text).2 = true)
    ∧ ((parseAll mode amt text).length ≤ MAX_BATCH_SIZE →
      (handleParse mode amt text).1 = parseAll mode amt text
      ∧ (handleParse mode amt text).2 = false) := by
  constructor
  · intro h
    have hsp : handleParse mode amt text
        = ((parseAll mode amt text).take MAX_BATCH_SIZE, true) := by
      unfold handleParse
      simp only [if_pos h]
    rw [hsp]
    refine ⟨?_, ⟨(parseAll mode amt text).drop MAX_BATCH_SIZE,
      List.take_append_drop _ _⟩, rfl⟩
    simp only [List.length_take]
    omega
  · intro h
    have hsp : handleParse mode amt text = (parseAll mode amt text, false) := by
      unfold handleParse
      simp only [if_neg (by omega : ¬ MAX_BATCH_SIZE < (parseAll mode amt text).length)]
    rw [hsp]
    exact ⟨rfl, rfl⟩

set_option maxRecDepth 100000 in
theorem parse_cap_truncation_apply :
    ((handleParse Mode.SAME "1" bigText101).1.length = MAX_BATCH_SIZE
      ∧ (handleParse Mode.SAME "1" bigText101).1 <+: parseAll Mode.SAME "1" bigText101
      ∧ (handleParse Mode.SAME "1" bigText101).2 = true)
    ∧ ((handleParse Mode.SAME "1" "a b").1 = parseAll Mode.SAME "1" "a b"
      ∧ (handleParse Mode.SAME "1" "a b").2 = false) :=
  ⟨(parse_cap_truncation Mode.SAME "1" bigText101).1 (by decide),
   (parse_cap_truncation Mode.SAME "1" "a b").2 (by decide)⟩

lemma tokGo_tokens : ∀ (fuel : Nat) (cs : List Char) (t : List Char),
    t ∈ tokGo fuel cs → t ≠ [] ∧ ∀ c ∈ t, isSepChar c = false := by
  intro fuel
  induction fuel with
  | zero => intro cs t h; simp [tokGo] at h
  | succ fuel ih =>
    intro cs t h
    cases cs with
    | nil => simp [tokGo] at h
    | cons c cs =>
      by_cases hc : isSepChar c
      · rw [show tokGo (fuel + 1) (c :: cs) = tokGo fuel cs from by
          simp [tokGo, hc]] at h
        exact ih cs t h
      · rw [show tokGo (fuel + 1) (c :: cs)
            = (c :: cs.takeWhile (fun d => !isSepChar d)) ::
                tokGo fuel (cs.dropWhile (fun d => !isSepChar d)) from by
          simp [tokGo, hc]] at h
        rcases List.mem_cons.mp h with h2 | h2
        · subst h2
          refine ⟨by simp, ?_⟩
          intro x hx
          rcases List.mem_cons.mp hx with hx | hx
          · subst hx
            exact Bool.not_eq_true _ ▸ (by simpa using hc)
          · have := List.mem_takeWhile_imp hx
            simpa using this
        · exact ih _ t h2

lemma tokGo_flatten : ∀ (fuel : Nat) (cs : List Char), cs.length ≤ fuel →
    (tokGo fuel cs).flatten = cs.filter (fun c => !isSepChar c) := by
  intro fuel
  induction fuel with
  | zero =>
    intro cs h
    cases cs with
    | nil => rfl
    | cons c cs => simp at h
  | succ fuel ih =>
    intro cs h
    cases cs with
    | nil => rfl
    | cons c cs =>
      by_cases hc : isSepChar c
      · rw [show tokGo (fuel + 1) (c :: cs) = tokGo fuel cs from by
          simp [tokGo, hc]]
        rw [ih cs (by simp only [List.length_cons] at h; omega)]
        simp [List.filter_cons, hc]
      · rw [show tokGo (fuel + 1) (c :: cs)
            = (c :: cs.takeWhile (fun d => !isSepChar d)) ::
                tokGo fuel (cs.dropWhile (fun d => !isSepChar d)) from by
          simp [tokGo, hc]]
        have hd : (cs.dropWhile (fun d => !isSepChar d)).length ≤ fuel := by
          have h1 := (List.dropWhile_sublist (l := cs) (fun d => !isSepChar d)).length_le
          simp only [List.length_cons] at h
          omega
        rw [List.flatten_cons, ih _ hd]
        have htk : (cs.takeWhile (fun d => !isSepChar d)).filter (fun x => !isSepChar x)
            = cs.takeWhile (fun d => !isSepChar d) :=
          List.filter_eq_self.mpr (fun x hx => by
            have h3 := List.mem_takeWhile_imp (p := fun d => !isSepChar d) hx
            simpa using h3)
        have hsplit : cs.filter (fun x => !isSepChar x)
            = cs.takeWhile (fun d => !isSepChar d)
              ++ (cs.dropWhile (fun d => !isSepChar d)).filter (fun x => !isSepChar x) := by
          conv_lhs => rw [← List.takeWhile_append_dropWhile (p := fun d => !isSepChar d) (l := cs)]
          rw [List.filter_append, htk]
        simp [List.filter_cons, hc, hsplit]

lemma pairUp_length : ∀ ts : List String, (pairUp ts).length = (ts.length + 1) / 2 := by
  intro ts
  induction ts using pairUp.induct with
  | case1 => rfl
  | case2 a =>
    simp only [pairUp, List.length_singleton]
  | case3 a b rest ih =>
    show (pairUp rest).length + 1 = (rest.length + 2 + 1) / 2
    rw [ih]
    omega

lemma pairUp_get : ∀ (ts : List String) (i : Nat) (h : i < (pairUp ts).length),
    (pairUp ts).get ⟨i, h⟩ = ⟨ts.getD (2 * i) "", ts.getD (2 * i + 1) "0"⟩ := by
  intro ts
  induction ts using pairUp.induct with
  | case1 => intro i h; simp [pairUp] at h
  | case2 a =>
    intro i h
    have hi : i = 0 := by
      simp [pairUp] at h
      omega
    subst hi
    rfl
  | case3 a b rest ih =>
    intro i h
    cases i with
    | zero => rfl
    | succ j =>
      have hj : j < (pairUp rest).length := by
        simp only [pairUp, List.length_cons] at h
        omega
      have lhs : (pairUp (a :: b :: rest)).get ⟨j + 1, h⟩ = (pairUp rest).get ⟨j, hj⟩ := rfl
      rw [lhs, ih j hj]
      have e1 : (a :: b :: rest).getD (2 * (j + 1)) "" = rest.getD (2 * j) "" := by
        have h1 : 2 * (j + 1) = 2 * j + 1 + 1 := by ring
        rw [h1, List.getD_cons_succ, List.getD_cons_succ]
      have e2 : (a :: b :: rest).getD (2 * (j + 1) + 1) "0" = rest.getD (2 * j + 1) "0" := by
        have h2 : 2 * (j + 1) + 1 = 2 * j + 1 + 1 + 1 := by ring
        rw [h2, List.getD_cons_succ, List.getD_cons_succ]
      rw [e1, e2]

lemma pairUp_trailing : ∀ (ts : List String) (a : String), ts.length % 2 = 0 →
    pairUp (ts ++ [a]) = pairUp ts ++ [⟨a, "0"⟩] := by
  intro ts
  induction ts using pairUp.induct with
  | case1 => intro a _; rfl
  | case2 x => intro a h; simp at h
  | case3 x y rest ih =>
    intro a h
    have hr : rest.length % 2 = 0 := by
      simp only [List.length_cons] at h
      omega
    show (⟨x, y⟩ : Recipient) :: pairUp (rest ++ [a]) = _
    rw [ih a hr]
    rfl

/-- Claim C8: tokenization splits the raw text on newline/whitespace/comma
runs and drops empty tokens (every token is nonempty and separator-free, and
the tokens concatenate to the input minus its separators); PAIRED mode
consumes the token stream positionally as (address, amount) pairs, and a
trailing address with no following amount token yields amount `"0"`. -/
theorem tokenize_paired_consumption (text amt : String) (ts : List String)
    (a : String) (i : Nat) (hi : i < (pairUp ts).length)
    (heven : ts.length % 2 = 0) :
    parseAll Mode.DIFF amt text = pairUp (tokenize text)
    ∧ (∀ t ∈ tokenize text, t ≠ "" ∧ ∀ c ∈ t.data, isSepChar c = false)
    ∧ (tokGo text.data.length text.data).flatten
      = text.data.filter (fun c => !isSepChar c)
    ∧ (pairUp ts).length = (ts.length + 1) / 2
    ∧ (pairUp ts).get ⟨i, hi⟩ = ⟨ts.getD (2 * i) "", ts.getD (2 * i + 1) "0"⟩
    ∧ pairUp (ts ++ [a]) = pairUp ts ++ [⟨a, "0"⟩] := by
  refine ⟨rfl, ?_, tokGo_flatten text.data.length text.data le_rfl,
    pairUp_length ts, pairUp_get ts i hi, pairUp_trailing ts a heven⟩
  intro t ht
  unfold tokenize at ht
  rcases List.mem_map.mp ht with ⟨cs, hcs, rfl⟩
  obtain ⟨hne, hsep⟩ := tokGo_tokens text.data.length text.data cs hcs
  constructor
  · intro hcontra
    apply hne
    have : (String.mk cs).data = ("" : String).data := by rw [hcontra]
    simpa using this
  · intro c hc
    exact hsep c hc

theorem tokenize_paired_consumption_apply :
    parseAll Mode.DIFF "" "A 1 B" = pairUp (tokenize "A 1 B")
    ∧ (∀ t ∈ tokenize "A 1 B", t ≠ "" ∧ ∀ c ∈ t.data, isSepChar c = false)
    ∧ (tokGo "A 1 B".data.length "A 1 B".data).flatten
      = "A 1 B".data.filter (fun c => !isSepChar c)
    ∧ (pairUp ["A", "1"]).length = ((["A", "1"] : List String).length + 1) / 2
    ∧ (pairUp ["A", "1"]).get ⟨0, by decide⟩
      = ⟨(["A", "1"] : List String).getD (2 * 0) "", (["A", "1"] : List String).getD (2 * 0 + 1) "0"⟩
    ∧ pairUp (["A", "1"] ++ ["B"]) = pairUp ["A", "1"] ++ [⟨"B", "0"⟩] :=
  tokenize_paired_consumption "A 1 B" "" ["A", "1"] "B" 0 (by decide) (by decide)

lemma pow2go_eq (fuel : Nat) : ∀ n : Nat, n ≤ fuel → pow2go fuel n = 2 ^ n := by
  induction fuel with
  | zero =>
    intro n h
    have hn : n = 0 := by omega
    subst hn
    rfl
  | succ fuel ih =>
    intro n h
    cases n with
    | zero => rfl
    | succ n0 =>
      have hh : n0 + 1 ≠ 0 := by omega
      simp only [pow2go]
      rw [ih ((n0 + 1) / 2) (by omega)]
      by_cases hpar : (n0 + 1) % 2 = 0
      · rw [if_pos hpar, ← pow_add]
        congr 1
        omega
      · rw [if_neg hpar, ← pow_add, ← pow_succ']
        congr 1
        omega

lemma pow2_eq (n : Nat) : pow2 n = 2 ^ n := pow2go_eq n n le_rfl

lemma floor_add_half_int (m : Int) : ⌊((m : ℚ) + 1 / 2)⌋ = m := by
  rw [Int.floor_int_add]
  have h0 : ⌊(1 / 2 : ℚ)⌋ = 0 := by
    rw [Int.floor_eq_zero_iff, Set.mem_Ico]
    norm_num
  rw [h0]
  simp

lemma mathRoundME_eq_floor (m e : Int) :
    mathRoundME m e = ⌊(m : ℚ) * (2 : ℚ) ^ e + 1 / 2⌋ := by
  unfold mathRoundME
  rcases le_or_lt 0 e with he | he
  · rw [if_pos he]
    have key : (m : ℚ) * (2 : ℚ) ^ e + 1 / 2
        = ((m * (pow2 e.toNat : Int) : Int) : ℚ) + 1 / 2 := by
      rw [pow2_eq]
      push_cast
      rw [← zpow_natCast (2 : ℚ) e.toNat, Int.toNat_of_nonneg he]
    rw [key, floor_add_half_int]
  · rw [if_neg (not_le.mpr he)]
    have h1 : (((-e).toNat : Int)) = -e := Int.toNat_of_nonneg (by omega)
    have hpow : (2 : ℚ) ^ e = (((pow2 (-e).toNat : Nat) : ℚ))⁻¹ := by
      rw [pow2_eq]
      push_cast
      rw [← zpow_natCast (2 : ℚ) (-e).toNat, h1, zpow_neg, inv_inv]
    have hne : (((pow2 (-e).toNat : Nat) : ℚ)) ≠ 0 := by
      rw [pow2_eq]
      positivity
    have key : (m : ℚ) * (2 : ℚ) ^ e + 1 / 2
        = ((2 * m + (pow2 (-e).toNat : Int) : Int) : ℚ) / ((2 * pow2 (-e).toNat : Nat) : ℚ) := by
      rw [hpow]
      push_cast
      field_simp
      try ring
    rw [key, Rat.floor_intCast_div_natCast]
    congr 1

/-- Claim C6 (amended): the conversion used by the builder computes
`Math.round` — `⌊x + 1/2⌋`, round half toward positive infinity — of the
**binary64 floating-point product** (parsed amount × `Math.pow(10, decimals)`),
is exact whenever that floating product is exactly an integer, and on the
spec's examples `"1.5"` at 9 decimals gives `1500000000` and `"0.000000001"`
at 9 decimals gives `1`.  It is not round-half-up of the exact decimal
product: rounding already performed by the parse and the multiplication can
move the result across a half-integer (see the counterexample). -/
theorem amount_conversion_round_half_up (m e : Int) :
    mathRoundME m e = ⌊(m : ℚ) * (2 : ℚ) ^ e + 1 / 2⌋
    ∧ (∀ k : Int, (m : ℚ) * (2 : ℚ) ^ e = (k : ℚ) → mathRoundME m e = k)
    ∧ convertAmount "1.5" 9 = some 1500000000
    ∧ convertAmount "0.000000001" 9 = some 1 := by
  refine ⟨mathRoundME_eq_floor m e, ?_, by decide, by decide⟩
  intro k hk
  rw [mathRoundME_eq_floor m e, hk, floor_add_half_int]

set_option maxRecDepth 100000 in
theorem amount_conversion_round_half_up_apply :
    mathRoundME 3 1 = 6 ∧ convertAmount "1.5" 9 = some 1500000000 :=
  ⟨(amount_conversion_round_half_up 3 1).2.1 6 (by norm_num),
   (amount_conversion_round_half_up 3 1).2.2.1⟩

set_option maxRecDepth 100000 in
/-- Claim C6 counterexample: round-half-up of the exact scaled decimal is
falsified by the double rounding of the source.  `"1.005"` at 2 decimals: the
exact value `1.005 * 10^2 = 100.5` would round half-up to `101`, but the
program computes `100` (the double nearest `1.005` is slightly below it, and
the binary64 product with `100` is slightly below `100.5`).  And
`"9007199254740993"` at 0 decimals: the exact scaled value is the odd integer
`9007199254740993 = 2^53 + 1`, which is not a double; the program returns the
even neighbour `9007199254740992`. -/
theorem double_rounding_counterexample :
    convertAmount "1.005" 2 = some 100
    ∧ (⌊((1005 : ℚ) / 10 ^ 3) * 10 ^ 2 + 1 / 2⌋ : Int) = 101
    ∧ convertAmount "9007199254740993" 0 = some 9007199254740992
    ∧ (9007199254740993 : Int) ≠ 9007199254740992 := by
  refine ⟨by decide, ?_, by decide, by decide⟩
  have h : ((1005 : ℚ) / 10 ^ 3) * 10 ^ 2 + 1 / 2 = ((101 : Int) : ℚ) := by norm_num
  rw [h, Int.floor_intCast]

lemma convertAmount_of_finite (s : String) (d : Nat) (m e : Int)
    (h : mulDouble (parseFloat s) (powTen d) = JsNum.finite m e) :
    convertAmount s d = some (mathRoundME m e) := by
  unfold convertAmount
  rw [h]

lemma chunk_mem_mem {α : Type} (B : Nat) (hB : 0 < B) (xs : List α)
    (c : List α) (hc : c ∈ chunk B xs) (x : α) (hx : x ∈ c) : x ∈ xs := by
  rw [← chunk_flatten B hB xs]
  exact List.mem_flatten.mpr ⟨c, hc, hx⟩

lemma build_isSome (f : String → Bool) (sender : String) (rs : List Recipient)
    (mint : String) (d : Nat)
    (h : ∀ r ∈ rs, (convertAmount r.amount d).isSome = true) :
    buildMultiSendTransaction f sender rs mint d ≠ none := by
  have hB : 0 < (if (mint = SOL_MINT : Bool) then MAX_TX_SIZE_SOL else MAX_TX_SIZE_SPL) := by
    cases (mint = SOL_MINT : Bool) <;> decide
  have hall : ∀ c ∈ chunk (if (mint = SOL_MINT : Bool) then MAX_TX_SIZE_SOL else MAX_TX_SIZE_SPL) rs,
      ((c.mapM (buildTransferIx (mint = SOL_MINT) mint sender d)).isSome = true) := by
    intro c hc
    apply mapM_option_isSome
    intro r hr
    have hrin : r ∈ rs := chunk_mem_mem _ hB rs c hc r hr
    unfold buildTransferIx
    have h2 := h r hrin
    cases hcv : convertAmount r.amount d with
    | none => rw [hcv] at h2; simp at h2
    | some amt => simp [hcv]
  have hsome : ((chunk (if (mint = SOL_MINT : Bool) then MAX_TX_SIZE_SOL else MAX_TX_SIZE_SPL) rs).mapM
      (fun (c : List Recipient) => c.mapM (buildTransferIx (mint = SOL_MINT) mint sender d))).isSome = true :=
    mapM_option_isSome _ _ hall
  unfold buildMultiSendTransaction
  simp only
  cases hm : (chunk (if (mint = SOL_MINT : Bool) then MAX_TX_SIZE_SOL else MAX_TX_SIZE_SPL) rs).mapM
      (fun c => c.mapM (buildTransferIx (mint = SOL_MINT) mint sender d)) with
  | none => rw [hm] at hsome; simp at hsome
  | some txs => simp

lemma mulDouble_nan (y : JsNum) : mulDouble JsNum.nan y = JsNum.nan := by
  cases y <;> rfl

/-- Claim C10 (amended): the builder's amount conversion fails (throws)
exactly when `Math.round` of the binary64 product is not a finite number —
in particular it fails for every amount string that does not parse as a
number, and succeeds (so the builder never throws) whenever each recipient's
floating product is finite.  The positive-amount filters of `handleSend` and
`handleMultiTokenSend` exclude the `NaN` parse but do **not** establish this
precondition: `Infinity` is positive and passes them while the conversion
throws (see the counterexample). -/
theorem amount_conversion_totality :
    (∀ (s : String) (d : Nat), parseFloat s = JsNum.nan → convertAmount s d = none)
    ∧ (∀ (s : String) (d : Nat) (m e : Int),
        mulDouble (parseFloat s) (powTen d) = JsNum.finite m e →
        convertAmount s d = some (mathRoundME m e))
    ∧ (∀ (f : String → Bool) (sender : String) (rs : List Recipient)
        (mint : String) (d : Nat),
        (∀ r ∈ rs, ∃ m e : Int,
          mulDouble (parseFloat r.amount) (powTen d) = JsNum.finite m e) →
        buildMultiSendTransaction f sender rs mint d ≠ none)
    ∧ (∀ s : String, posAmount s = true → parseFloat s ≠ JsNum.nan) := by
  refine ⟨?_, ?_, ?_, ?_⟩
  · intro s d hs
    unfold convertAmount
    rw [hs, mulDouble_nan]
  · intro s d m e h
    exact convertAmount_of_finite s d m e h
  · intro f sender rs mint d h
    apply build_isSome
    intro r hr
    rcases h r hr with ⟨m, e, hme⟩
    rw [convertAmount_of_finite r.amount d m e hme]
    rfl
  · intro s hp hn
    unfold posAmount at hp
    rw [hn] at hp
    exact absurd hp (by decide)

set_option maxRecDepth 100000 in
theorem amount_conversion_totality_apply :
    convertAmount "abc" 9 = none
    ∧ buildMultiSendTransaction (fun _ => false) "S" [⟨"A", "1"⟩] SOL_MINT 0 ≠ none
    ∧ parseFloat "1" ≠ JsNum.nan :=
  ⟨amount_conversion_totality.1 "abc" 9 (by decide),
   amount_conversion_totality.2.2.1 (fun _ => false) "S" [⟨"A", "1"⟩] SOL_MINT 0
     (fun r hr => by
       rw [List.mem_singleton] at hr
       subst hr
       exact ⟨4503599627370496, -52, by decide⟩),
   amount_conversion_totality.2.2.2 "1" (by decide)⟩

set_option maxRecDepth 100000 in
/-- Claim C10 counterexample: the amount `"1e999"` (likewise `"Infinity"`)
parses to `Infinity`, which is `> 0` and therefore passes `handleSend`'s
recipient filter unchanged, yet the builder's conversion throws
(`BigInt(Math.round(Infinity * 10^d))` raises a `RangeError`), so the builder
fails on filter-surviving input: the filters do not make the conversion
total. -/
theorem infinite_amount_passes_filter :
    posAmount "1e999" = true
    ∧ parseFloat "1e999" = JsNum.inf
    ∧ convertAmount "1e999" 9 = none
    ∧ singleValidFilter (fun _ => true) [⟨"A", "1e999"⟩] = [⟨"A", "1e999"⟩]
    ∧ buildMultiSendTransaction (fun _ => false) "S"
        (singleValidFilter (fun _ => true) [⟨"A", "1e999"⟩]) SOL_MINT 9 = none :=
  ⟨by decide, by decide, by decide, by decide, by decide⟩

lemma failed_ne_timeout (e : String) :
    ("Transaction failed: " ++ e) ≠ "Transaction confirmation timeout" := by
  intro h
  have h2 : ("Transaction failed: ".data ++ e.data).take 20
      = "Transaction confirmation timeout".data.take 20 := by
    rw [← String.data_append, h]
  rw [List.take_left' (by decide : ("Transaction failed: ".data).length = 20)] at h2
  exact absurd h2 (by decide)

lemma confirmLoop_success (polls : Nat → PollResp) (commitment : String) :
    ∀ (fuel k : Nat), (confirmLoop polls commitment fuel k).success = true →
      ∃ j cs, polls j = PollResp.status none cs
        ∧ (cs = commitment ∨ cs = "finalized") := by
  intro fuel
  induction fuel with
  | zero => intro k h; simp [confirmLoop] at h
  | succ fuel ih =>
    intro k h
    cases hp : polls k with
    | noResult =>
      have hstep : confirmStep commitment (polls k) = none := by rw [hp]; rfl
      rw [show confirmLoop polls commitment (fuel + 1) k
          = confirmLoop polls commitment fuel (k + 1) from by
        simp [confirmLoop, hstep]] at h
      exact ih (k + 1) h
    | status err cst =>
      cases err with
      | some e2 =>
        have hstep : confirmStep commitment (polls k)
            = some ⟨false, some ("Transaction failed: " ++ e2)⟩ := by rw [hp]; rfl
        rw [show confirmLoop polls commitment (fuel + 1) k
            = ⟨false, some ("Transaction failed: " ++ e2)⟩ from by
          simp [confirmLoop, hstep]] at h
        simp at h
      | none =>
        by_cases hif : cst = commitment ∨ cst = "finalized"
        · exact ⟨k, cst, hp, hif⟩
        · have hstep : confirmStep commitment (polls k) = none := by
            rw [hp]
            show (if cst = commitment ∨ cst = "finalized"
              then some (⟨true, none⟩ : ConfirmResult) else none) = none
            rw [if_neg hif]
          rw [show confirmLoop polls commitment (fuel + 1) k
              = confirmLoop polls commitment fuel (k + 1) from by
            simp [confirmLoop, hstep]] at h
          exact ih (k + 1) h

lemma confirmLoop_failure (polls : Nat → PollResp) (commitment : String) :
    ∀ (fuel k : Nat) (e : String),
      (confirmLoop polls commitment fuel k).error = some ("Transaction failed: " ++ e) →
      ∃ j cs, polls j = PollResp.status (some e) cs := by
  intro fuel
  induction fuel with
  | zero =>
    intro k e h
    simp only [confirmLoop, Option.some.injEq] at h
    exact absurd h.symm (failed_ne_timeout e)
  | succ fuel ih =>
    intro k e h
    cases hp : polls k with
    | noResult =>
      have hstep : confirmStep commitment (polls k) = none := by rw [hp]; rfl
      rw [show confirmLoop polls commitment (fuel + 1) k
          = confirmLoop polls commitment fuel (k + 1) from by
        simp [confirmLoop, hstep]] at h
      exact ih (k + 1) e h
    | status err cst =>
      cases err with
      | some e2 =>
        have hstep : confirmStep commitment (polls k)
            = some ⟨false, some ("Transaction failed: " ++ e2)⟩ := by rw [hp]; rfl
        rw [show confirmLoop polls commitment (fuel + 1) k
            = ⟨false, some ("Transaction failed: " ++ e2)⟩ from by
          simp [confirmLoop, hstep]] at h
        simp only [Option.some.injEq] at h
        have he : e2 = e := by
          have hd := congrArg String.data h
          rw [String.data_append, String.data_append] at hd
          exact String.ext (List.append_cancel_left hd)
        exact ⟨k, cst, by rw [hp, he]⟩
      | none =>
        by_cases hif : cst = commitment ∨ cst = "finalized"
        · have hstep : confirmStep commitment (polls k)
              = some ⟨true, none⟩ := by
            rw [hp]
            show (if cst = commitment ∨ cst = "finalized"
              then some (⟨true, none⟩ : ConfirmResult) else none) = some ⟨true, none⟩
            rw [if_pos hif]
          rw [show confirmLoop polls commitment (fuel + 1) k
              = ⟨true, none⟩ from by
            simp [confirmLoop, hstep]] at h
          simp at h
        · have hstep : confirmStep commitment (polls k) = none := by
            rw [hp]
            show (if cst = commitment ∨ cst = "finalized"
              then some (⟨true, none⟩ : ConfirmResult) else none) = none
            rw [if_neg hif]
          rw [show confirmLoop polls commitment (fuel + 1) k
              = confirmLoop polls commitment fuel (k + 1) from by
            simp [confirmLoop, hstep]] at h
          exact ih (k + 1) e h

lemma confirmLoop_all_null (polls : Nat → PollResp) (commitment : String)
    (hall : ∀ k, polls k = PollResp.noResult) :
    ∀ (fuel k : Nat), confirmLoop polls commitment fuel k
      = ⟨false, some "Transaction confirmation timeout"⟩ := by
  intro fuel
  induction fuel with
  | zero => intro k; rfl
  | succ fuel ih =>
    intro k
    rw [show confirmLoop polls commitment (fuel + 1) k
        = confirmLoop polls commitment fuel (k + 1) from by
      simp [confirmLoop, hall k, confirmStep]]
    exact ih (k + 1)

/-- Claim C9: the confirmation watcher succeeds only when a polled status
reaches the requested commitment or `finalized`, reports an on-chain failure
message only when a polled status carries an error, treats invisible statuses
as pending until the poll budget (one poll per ~2s up to the timeout) is
exhausted, and its timeout result is distinct from every on-chain-failure
result. -/
theorem confirmation_watcher_outcomes (polls : Nat → PollResp)
    (commitment : String) (timeoutMs : Nat) :
    ((confirmTransactionWithTimeout polls commitment timeoutMs).success = true →
      ∃ j cs, polls j = PollResp.status none cs
        ∧ (cs = commitment ∨ cs = "finalized"))
    ∧ (∀ e, (confirmTransactionWithTimeout polls commitment timeoutMs).error
          = some ("Transaction failed: " ++ e) →
        ∃ j cs, polls j = PollResp.status (some e) cs)
    ∧ ((∀ k, polls k = PollResp.noResult) →
        confirmTransactionWithTimeout polls commitment timeoutMs
          = ⟨false, some "Transaction confirmation timeout"⟩)
    ∧ (∀ e, ("Transaction failed: " ++ e) ≠ "Transaction confirmation timeout") :=
  ⟨confirmLoop_success polls commitment ((timeoutMs + 1999) / 2000) 0,
   fun e h => confirmLoop_failure polls commitment ((timeoutMs + 1999) / 2000) 0 e h,
   fun hall => confirmLoop_all_null polls commitment hall ((timeoutMs + 1999) / 2000) 0,
   failed_ne_timeout⟩

theorem confirmation_watcher_outcomes_apply :
    confirmTransactionWithTimeout (fun _ => PollResp.noResult) "confirmed" 90000
      = ⟨false, some "Transaction confirmation timeout"⟩ :=
  (confirmation_watcher_outcomes (fun _ => PollResp.noResult) "confirmed" 90000).2.2.1
    (fun _ => rfl)

/-- Claim C4 counterexample: two occurrences of the same recipient address
`"A"` whose receiving account does not exist yield two creation work items
for the same derived account id `"M/A"` — the resolution loop has no
deduplication step, so the claim's "never more than one creation work item
per derived account id" is false on the code. -/
theorem duplicate_address_duplicate_creation_work :
    ((resolveAtas (fun _ => false) "M" [⟨"A", "1"⟩, ⟨"A", "1"⟩]).work.map
        (fun w => w.ata)).count "M/A" = 2 := by decide

/-- Claim C4 amended: the resolution loop partitions each recipient into
exactly one of the existing count and the creation work list (their sizes sum
to the input length), and the creation work is exactly the recipients whose
derived account is absent, in input order, with one work item per occurrence
— duplicate addresses therefore produce duplicate creation work rather than
being deduplicated. -/
theorem resolve_partition (f : String → Bool) (mint : String)
    (rs : List Recipient) :
    (resolveAtas f mint rs).existing + (resolveAtas f mint rs).toCreate = rs.length
    ∧ (resolveAtas f mint rs).toCreate = (resolveAtas f mint rs).work.length
    ∧ (resolveAtas f mint rs).work
      = (rs.filter (fun r => !f (deriveAta mint r.address))).map
          (fun r => ⟨r.address, deriveAta mint r.address, mint⟩)
    ∧ (resolveAtas f mint rs).existing
      = (rs.filter (fun r => f (deriveAta mint r.address))).length := by
  induction rs with
  | nil => exact ⟨rfl, rfl, rfl, rfl⟩
  | cons r rest ih =>
    obtain ⟨ih1, ih2, ih3, ih4⟩ := ih
    cases hf : f (deriveAta mint r.address) with
    | true =>
      simp only [resolveAtas, hf, if_true, List.filter_cons, Bool.not_true,
        Bool.false_eq_true, if_false, List.length_cons]
      refine ⟨by omega, ih2, ih3, by simp [List.length_cons, ih4]⟩
    | false =>
      simp only [resolveAtas, hf, Bool.false_eq_true, if_false, List.filter_cons,
        Bool.not_false, if_true, List.length_cons, List.map_cons]
      exact ⟨by omega, by simp [ih2], by rw [ih3], ih4⟩

/-- Claim C1 (supporting evaluation for the code bug): with every submission
accepted but every confirmation poll invisible, both orchestrators still
finish in SUCCESS even though the awaited confirmation returned the
"Transaction confirmation timeout" result, as the event trace shows — the
source discards the result of `confirmTransactionWithTimeout`. -/
theorem success_despite_confirmation_timeout :
    (runHandleSend envTimeout TokType.SOL [⟨"addr1", "1"⟩] "" 9 "S").1.status
      = Status.SUCCESS
    ∧ (runHandleSend envTimeout TokType.SOL [⟨"addr1", "1"⟩] "" 9 "S").2
      = [Ev.submitTransfer 0 "sig0",
         Ev.confirmTransfer 0 "sig0" ⟨false, some "Transaction confirmation timeout"⟩]
    ∧ (runHandleMultiTokenSend envTimeout [⟨"addr1", "1"⟩] oneToken "S").1.status
      = Status.SUCCESS
    ∧ (runHandleMultiTokenSend envTimeout [⟨"addr1", "1"⟩] oneToken "S").2
      = [Ev.submitTransfer 0 "sig0",
         Ev.confirmTransfer 0 "sig0" ⟨false, some "Transaction confirmation timeout"⟩] :=
  ⟨rfl, rfl, rfl, rfl⟩

/-- Claim C3 counterexample: a two-asset run whose first asset submits and
confirms the signature `"sig0"` and whose second asset aborts on sponsorship
ends in ERROR with an empty reported signature list — the accumulated
signature of the earlier asset is hidden, refuting the claim that the
session's signature list preserves the signatures accumulated so far. -/
theorem error_run_hides_accumulated_signatures :
    (runHandleMultiTokenSend envAbort [⟨"A", "1"⟩] twoTokens "S").1.status
      = Status.ERROR
    ∧ (runHandleMultiTokenSend envAbort [⟨"A", "1"⟩] twoTokens "S").2
      = [Ev.submitTransfer 0 "sig0", Ev.confirmTransfer 0 "sig0" ⟨true, none⟩]
    ∧ (runHandleMultiTokenSend envAbort [⟨"A", "1"⟩] twoTokens "S").1.txSigs = [] :=
  ⟨rfl, rfl, rfl⟩

/-- Claim C3 amended: whenever a run ends in the ERROR phase, the session's
reported signature list is empty — `txSigs` is cleared when the run starts
and is repopulated only on SUCCESS, so signatures accumulated before the
abort are discarded rather than reported. -/
theorem error_phase_reports_no_signatures (env : Env) (tokenType : TokType)
    (parsed : List Recipient) (splMint : String) (splDecimals : Nat)
    (sender : String) (tokens : List TokenSel) :
    ((runHandleSend env tokenType parsed splMint splDecimals sender).1.status
        = Status.ERROR →
      (runHandleSend env tokenType parsed splMint splDecimals sender).1.txSigs = [])
    ∧ ((runHandleMultiTokenSend env parsed tokens sender).1.status = Status.ERROR →
      (runHandleMultiTokenSend env parsed tokens sender).1.txSigs = []) := by
  constructor
  · unfold runHandleSend
    split
    · intro _; rfl
    · split
      · intro _; rfl
      · split
        · intro _; rfl
        · intro h; simp at h
  · unfold runHandleMultiTokenSend
    split
    · intro _; rfl
    · split
      · intro _; rfl
      · split
        · intro _; rfl
        · intro h; simp at h

theorem error_phase_reports_no_signatures_apply :
    (runHandleMultiTokenSend envAbort [⟨"A", "1"⟩] twoTokens "S").1.txSigs = []
    ∧ (runHandleSend envAbort TokType.SPL [] "M" 0 "S").1.txSigs = [] :=
  ⟨(error_phase_reports_no_signatures envAbort TokType.SPL [⟨"A", "1"⟩] "M" 0 "S"
      twoTokens).2 (by rfl),
   (error_phase_reports_no_signatures envAbort TokType.SPL [] "M" 0 "S"
      twoTokens).1 (by rfl)⟩

lemma submitAtas_events (env : Env) (asset : Nat)
    (wrapS wrapT : Nat → String → String) :
    ∀ (batches : List (List Instr)) (k i : Nat),
      (submitAtas env asset wrapS wrapT k i batches).events
        = (submitAtas env asset wrapS wrapT k i batches).sigs.map
            (fun s => Ev.submitAta asset s) := by
  intro batches
  induction batches with
  | nil => intro k i; rfl
  | cons tx rest ih =>
    intro k i
    cases hs : env.sponsor k with
    | error e => simp [submitAtas, hs]
    | ok signed =>
      cases hb : env.submit k with
      | error e => simp [submitAtas, hs, hb]
      | ok sig => simp [submitAtas, hs, hb, ih (k + 1) (i + 1)]

lemma submitAtas_complete (env : Env) (asset : Nat)
    (wrapS wrapT : Nat → String → String) :
    ∀ (batches : List (List Instr)) (k i : Nat),
      (submitAtas env asset wrapS wrapT k i batches).error = none →
      (submitAtas env asset wrapS wrapT k i batches).sigs.length = batches.length := by
  intro batches
  induction batches with
  | nil => intro k i _; rfl
  | cons tx rest ih =>
    intro k i h
    cases hs : env.sponsor k with
    | error e => simp [submitAtas, hs] at h
    | ok signed =>
      cases hb : env.submit k with
      | error e => simp [submitAtas, hs, hb] at h
      | ok sig =>
        simp only [submitAtas, hs, hb] at h ⊢
        simp only [List.length_cons, List.length_cons]
        exact congrArg (· + 1) (ih (k + 1) (i + 1) h)

lemma submitTransfers_events (env : Env) (asset : Nat) :
    ∀ (batches : List (List Instr)) (k : Nat),
      (submitTransfers env asset k batches).events
        = (submitTransfers env asset k batches).sigs.map
            (fun s => Ev.submitTransfer asset s) := by
  intro batches
  induction batches with
  | nil => intro k; rfl
  | cons tx rest ih =>
    intro k
    cases hb : env.submit k with
    | error e => simp [submitTransfers, hb]
    | ok sig => simp [submitTransfers, hb, ih (k + 1)]

/-- Claim C5: creation work is chunked into creation batches of at most
`ataChunkSize = 2` items per transaction, and in the per-asset pipeline the
event trace decomposes as creation submissions, then creation confirmations,
then transfer submissions, then transfer confirmations — so every creation
batch is submitted and its confirmation awaited before any transfer batch of
that asset is submitted, and if any transfer was submitted then every planned
creation batch was first submitted and awaited. -/
theorem creation_confirmed_before_transfers (env : Env) (asset : Nat)
    (wrapS wrapT : Nat → String → String) (k0 : Nat) (sender : String)
    (rs : List Recipient) (mint : String) (d : Nat) :
    (∀ br, buildMultiSendTransaction env.ataExists sender rs mint d = some br →
      ∀ tx ∈ br.ataTxs, tx.length ≤ ataChunkSize)
    ∧ ∃ evA evC evT evTC,
        (processAsset env asset wrapS wrapT k0 sender rs mint d).events
          = evA ++ evC ++ evT ++ evTC
        ∧ (∀ e ∈ evA, ∃ s, e = Ev.submitAta asset s)
        ∧ (∀ e ∈ evC, ∃ s cr, e = Ev.confirmAta asset s cr)
        ∧ (∀ e ∈ evT, ∃ s, e = Ev.submitTransfer asset s)
        ∧ (∀ e ∈ evTC, ∃ s cr, e = Ev.confirmTransfer asset s cr)
        ∧ (evT ≠ [] →
            ∀ br, buildMultiSendTransaction env.ataExists sender rs mint d
                = some br →
              evA.length = br.ataTxs.length ∧ evC.length = br.ataTxs.length) := by
  constructor
  · intro br hbr tx htx
    unfold buildMultiSendTransaction at hbr
    simp only at hbr
    cases hm : (chunk (if (mint = SOL_MINT : Bool) then MAX_TX_SIZE_SOL else MAX_TX_SIZE_SPL) rs).mapM
        (fun (c : List Recipient) => c.mapM (buildTransferIx (mint = SOL_MINT) mint sender d)) with
    | none => rw [hm] at hbr; exact absurd hbr (by simp)
    | some txs =>
      rw [hm] at hbr
      simp only [Option.some.injEq] at hbr
      have hata : br.ataTxs = (chunk ataChunkSize
          (if (mint = SOL_MINT : Bool) then (⟨0, 0, []⟩ : ResolveResult)
            else resolveAtas env.ataExists mint rs).work).map
          (fun ws => ws.map (fun w => Instr.createAta sender w.ata w.recipient w.mint)) := by
        rw [← hbr]
      rw [hata] at htx
      rcases List.mem_map.mp htx with ⟨ws, hws, rfl⟩
      rw [List.length_map]
      exact chunk_mem_length ataChunkSize _ ws hws
  · unfold processAsset
    cases hb : buildMultiSendTransaction env.ataExists sender rs mint d with
    | none =>
      refine ⟨[], [], [], [], rfl, by simp, by simp, by simp, by simp, ?_⟩
      intro hne
      exact absurd rfl hne
    | some br =>
      cases ha : submitAtas env asset wrapS wrapT k0 0 br.ataTxs with
      | mk aSigs aEvents aErr =>
        have haev : aEvents = aSigs.map (fun s => Ev.submitAta asset s) := by
          have h1 := submitAtas_events env asset wrapS wrapT br.ataTxs k0 0
          rw [ha] at h1
          exact h1
        have haall : ∀ e ∈ aEvents, ∃ s, e = Ev.submitAta asset s := by
          intro ev hev
          rw [haev] at hev
          rcases List.mem_map.mp hev with ⟨s, _, rfl⟩
          exact ⟨s, rfl⟩
        cases aErr with
        | some e =>
          refine ⟨aEvents, [], [], [], by simp [ha], haall, by simp, by simp,
            by simp, ?_⟩
          intro hne
          exact absurd rfl hne
        | none =>
          have hacomp : aSigs.length = br.ataTxs.length := by
            have h1 := submitAtas_complete env asset wrapS wrapT br.ataTxs k0 0
            rw [ha] at h1
            exact h1 rfl
          have hcall : ∀ e ∈ confirmEvents env (fun s r => Ev.confirmAta asset s r) aSigs,
              ∃ s cr, e = Ev.confirmAta asset s cr := by
            intro ev hev
            unfold confirmEvents at hev
            rcases List.mem_map.mp hev with ⟨s, _, rfl⟩
            exact ⟨s, awaitConfirm env s, rfl⟩
          have hfin : ∀ br2, buildMultiSendTransaction env.ataExists sender rs mint d
              = some br2 →
              aEvents.length = br2.ataTxs.length
              ∧ (confirmEvents env (fun s r => Ev.confirmAta asset s r) aSigs).length
                = br2.ataTxs.length := by
            intro br2 hbr2
            rw [hb] at hbr2
            have hbr3 : br = br2 := by
              simpa using hbr2
            rw [← hbr3]
            constructor
            · rw [haev, List.length_map, hacomp]
            · unfold confirmEvents
              rw [List.length_map, hacomp]
          cases ht : submitTransfers env asset (k0 + aSigs.length) br.transferTxs with
          | mk tSigs tEvents tErr =>
            have htev : tEvents = tSigs.map (fun s => Ev.submitTransfer asset s) := by
              have h1 := submitTransfers_events env asset br.transferTxs (k0 + aSigs.length)
              rw [ht] at h1
              exact h1
            have htall : ∀ e ∈ tEvents, ∃ s, e = Ev.submitTransfer asset s := by
              intro ev hev
              rw [htev] at hev
              rcases List.mem_map.mp hev with ⟨s, _, rfl⟩
              exact ⟨s, rfl⟩
            cases tErr with
            | some e =>
              refine ⟨aEvents, confirmEvents env (fun s r => Ev.confirmAta asset s r) aSigs,
                tEvents, [], by simp [ha, ht], haall, hcall, htall, by simp, ?_⟩
              intro _ br2 hbr2
              exact hfin br2 (by rw [hb]; exact hbr2)
            | none =>
              refine ⟨aEvents, confirmEvents env (fun s r => Ev.confirmAta asset s r) aSigs,
                tEvents, confirmEvents env (fun s r => Ev.confirmTransfer asset s r) tSigs,
                by simp [ha, ht], haall, hcall, htall, ?_, ?_⟩
              · intro ev hev
                unfold confirmEvents at hev
                rcases List.mem_map.mp hev with ⟨s, _, rfl⟩
                exact ⟨s, awaitConfirm env s, rfl⟩
              · intro _ br2 hbr2
                exact hfin br2 (by rw [hb]; exact hbr2)

theorem creation_confirmed_before_transfers_apply :
    ∃ evA evC evT evTC,
      (processAsset envTimeout 0 singleWrapSponsor singleWrapSubmit 0 "S"
        [⟨"addr1", "1"⟩] "SOL" 9).events = evA ++ evC ++ evT ++ evTC
      ∧ (∀ e ∈ evA, ∃ s, e = Ev.submitAta 0 s)
      ∧ (∀ e ∈ evC, ∃ s cr, e = Ev.confirmAta 0 s cr)
      ∧ (∀ e ∈ evT, ∃ s, e = Ev.submitTransfer 0 s)
      ∧ (∀ e ∈ evTC, ∃ s cr, e = Ev.confirmTransfer 0 s cr)
      ∧ (evT ≠ [] →
          ∀ br, buildMultiSendTransaction envTimeout.ataExists "S"
              [⟨"addr1", "1"⟩] "SOL" 9 = some br →
            evA.length = br.ataTxs.length ∧ evC.length = br.ataTxs.length) :=
  (creation_confirmed_before_transfers envTimeout 0 singleWrapSponsor singleWrapSubmit
    0 "S" [⟨"addr1", "1"⟩] "SOL" 9).2
